import Mathlib

/-!
# Dependency resolution and lockfile subsystem of quantum-cli, shallowly embedded

This file embeds the dependency-resolution core of the `quantum-cli` package
manager (`src/dependency.rs`, `src/lockfile.rs`, `src/manifest.rs`) as
executable Lean definitions, and proves the specification claims about it.

Modelling conventions:
* Rust `HashMap` values that the code iterates over are modelled as
  association lists (`List (key × value)`); the resolver only ever inserts
  fresh keys, so the association-list operations coincide with map semantics.
* The outside world (registry HTTP downloads, the filesystem, external
  `git clone` / `git checkout` processes) is a passive `Env` record mapping
  each request to its outcome; the on-disk dependency cache (`~/.quantum/cache`)
  is explicit state of type `CacheSt` threaded through the fetch functions.
* Each fetch function also returns the list of I/O `Event`s it performed,
  so "no I/O happened" and "exactly one download" are provable statements.
* The worklist loop of `DependencyResolver::resolve` is defined with an
  explicit fuel argument; `fuelFor` computes a bound that is proved
  sufficient (`resolveLoop_fuel_sufficient`), so fuel exhaustion never
  occurs and the embedding is faithful to the terminating Rust loop.
-/

deriving instance DecidableEq for Except

/-- Association-list lookup, mirroring `HashMap::get` / `contains_key`. -/
def lookupKV {α β : Type} [DecidableEq α] : List (α × β) → α → Option β
  | [], _ => none
  | (k, v) :: rest, key => if key = k then some v else lookupKV rest key

/-- Association-list insert, mirroring `HashMap::insert` (replace or append). -/
def insertKV {α β : Type} [DecidableEq α] : List (α × β) → α → β → List (α × β)
  | [], key, val => [(key, val)]
  | (k, v) :: rest, key, val =>
      if key = k then (key, val) :: rest else (k, v) :: insertKV rest key val

/-- `[package]` metadata of `Quantum.toml` (`PackageMetadata` in `manifest.rs`). -/
structure PackageMetadata where
  name : String
  version : String
  authors : List String
  description : Option String
  license : Option String
  repository : Option String
  homepage : Option String
  edition : String
deriving DecidableEq

/-- `[build]` configuration (`BuildConfig` in `manifest.rs`). -/
structure BuildConfig where
  opt_level : Nat
  debug : Bool
  address_size : Nat
deriving DecidableEq

/-- Detailed dependency declaration (`DetailedDependency` in `manifest.rs`). -/
structure DetailedDependency where
  version : Option String
  git : Option String
  branch : Option String
  tag : Option String
  rev : Option String
  path : Option String
  registry : Option String
deriving DecidableEq

/-- Dependency declaration: bare version string or detailed record
(`Dependency` in `manifest.rs`). -/
inductive Dependency where
  | Simple (version : String)
  | Detailed (d : DetailedDependency)
deriving DecidableEq

/-- Package manifest (`Manifest` in `manifest.rs`); the dependency tables are
kept as association lists in declaration order. -/
structure Manifest where
  package : PackageMetadata
  dependencies : List (String × Dependency)
  dev_dependencies : List (String × Dependency)
  build : BuildConfig
deriving DecidableEq

/-- ASCII decimal digit test, as used by Rust's integer parser. -/
def isDigitChar (c : Char) : Bool := '0' ≤ c && c ≤ '9'

/-- Model of Rust's `str::parse::<u32>()` (the standard library collaborator):
an optional leading `'+'`, then at least one ASCII digit, and the value must
fit in 32 bits; anything else is an error. -/
def parsesAsU32 (s : List Char) : Bool :=
  let digits := match s with
    | '+' :: rest => rest
    | _ => s
  !digits.isEmpty && digits.all isDigitChar &&
    digits.foldl (fun acc c => acc * 10 + (c.toNat - '0'.toNat)) 0 < 2 ^ 32

/-- Split a character list at every occurrence of `sep`, mirroring Rust's
`str::split(char)` (so `"1..2"` yields three parts, the middle one empty). -/
def splitOnChar (sep : Char) : List Char → List (List Char)
  | [] => [[]]
  | c :: rest =>
    match splitOnChar sep rest with
    | [] => [[]]
    | h :: t => if c = sep then [] :: h :: t else (c :: h) :: t

/-- `is_valid_version` from `manifest.rs`: split on `'.'` into exactly three
parts, each parsing as a `u32`. -/
def is_valid_version (version : String) : Bool :=
  let parts := splitOnChar '.' version.data
  parts.length == 3 && parts.all parsesAsU32

/-- `Manifest::validate` from `manifest.rs`, as the acceptance predicate of
manifest loading (`Char.isAlphanum` models Rust's `is_alphanumeric` on the
ASCII names used here). -/
def validate (m : Manifest) : Bool :=
  !m.package.name.data.isEmpty &&
  m.package.name.data.all (fun c => c.isAlphanum || c = '_' || c = '-') &&
  is_valid_version m.package.version &&
  (m.package.edition == "2024") &&
  decide (m.build.opt_level ≤ 3) &&
  (m.build.address_size == 32 || m.build.address_size == 64)

/-- Origin of a dependency (`DependencySource` in `dependency.rs`). -/
inductive DependencySource where
  | Registry
  | Path
  | Git
deriving DecidableEq

/-- A resolved dependency record (`DependencyInfo` in `dependency.rs`). -/
structure DependencyInfo where
  name : String
  version : String
  path : String
  manifest : Manifest
  source : DependencySource
deriving DecidableEq

/-- The distinct failure exits of the resolver (each `bail!` / error site of
`dependency.rs`); `fuelExhausted` is an artifact of the fuel embedding and is
proved unreachable. -/
inductive ResolveError where
  | depthExceeded
  | specError (name : String)
  | pathNotFound (path : String)
  | manifestError
  | downloadFail
  | packageNotFound (name version : String)
  | extractError
  | cloneFail
  | checkoutFail
  | fuelExhausted
deriving DecidableEq

/-- External I/O actions performed during resolution. -/
inductive Event where
  | download (name version : String)
  | clone (url : String)
  | pathCheck (path : String)
deriving DecidableEq

/-- Outcome of `Registry::download` followed by `extract_archive`:
the request can fail to send, return a non-success status, deliver an archive
that fails to unpack, or deliver one that extracts into a directory whose
`Quantum.toml` load result is `dir` (`none` = unreadable or invalid). -/
inductive RegistryOutcome where
  | sendFail
  | notFound
  | extractFail (dir : Option Manifest)
  | extracted (dir : Option Manifest)
deriving DecidableEq

/-- Outcome of an external `git clone` or `git checkout` invocation:
non-zero exit, or success leaving a directory whose manifest load result is
`dir`. -/
inductive CloneRes where
  | fail
  | ok (dir : Option Manifest)
deriving DecidableEq

/-- The passive outside world: registry responses keyed by (name, version),
local filesystem directories keyed by path, and git clone/checkout outcomes
keyed by (url, branch) resp. (url, branch, rev). -/
structure Env where
  download : List ((String × String) × RegistryOutcome)
  fs : List (String × Option Manifest)
  clone : List ((String × Option String) × CloneRes)
  checkout : List ((String × Option String × String) × CloneRes)

/-- The on-disk cache (`~/.quantum/cache`): identity → manifest load result of
the cached directory. A present key is an existing directory. -/
abbrev CacheSt := List (String × Option Manifest)

/-- Registry response for a (name, version) request; an unknown request fails
to send. -/
def Env.downloadAt (env : Env) (k : String × String) : RegistryOutcome :=
  (lookupKV env.download k).getD .sendFail

/-- Clone outcome for a (url, branch) request; an unknown request exits
non-zero. -/
def Env.cloneAt (env : Env) (k : String × Option String) : CloneRes :=
  (lookupKV env.clone k).getD .fail

/-- Checkout outcome for a (url, branch, rev) request. -/
def Env.checkoutAt (env : Env) (k : String × Option String × String) : CloneRes :=
  (lookupKV env.checkout k).getD .fail

/-- `load_cached_dependency` from `dependency.rs`: read `Quantum.toml` at the
cached directory; note the hardcoded `DependencySource::Registry`. -/
def load_cached_dependency (st : CacheSt) (path : String) :
    Except ResolveError DependencyInfo :=
  match lookupKV st path with
  | some (some m) =>
      .ok ⟨m.package.name, m.package.version, path, m, .Registry⟩
  | some none => .error .manifestError
  | none => .error .manifestError

/-- `resolve_registry_dependency` from `dependency.rs`: serve from the cache
directory keyed `name-version` if present, otherwise download, extract into
that directory, and load from there. -/
def resolve_registry_dependency (env : Env) (st : CacheSt) (name version : String) :
    Except ResolveError DependencyInfo × CacheSt × List Event :=
  let cache_path := name ++ "-" ++ version
  if (lookupKV st cache_path).isSome then
    (load_cached_dependency st cache_path, st, [])
  else
    match env.downloadAt (name, version) with
    | .sendFail => (.error .downloadFail, st, [.download name version])
    | .notFound => (.error (.packageNotFound name version), st, [.download name version])
    | .extractFail dir =>
        (.error .extractError, insertKV st cache_path dir, [.download name version])
    | .extracted dir =>
        let st' := insertKV st cache_path dir
        (load_cached_dependency st' cache_path, st', [.download name version])

/-- `resolve_path_dependency` from `dependency.rs`: fail if the path does not
exist, else load its manifest directly; the record keeps the declared key as
its name and the caller-supplied path. -/
def resolve_path_dependency (env : Env) (name path : String) :
    Except ResolveError DependencyInfo × List Event :=
  match lookupKV env.fs path with
  | none => (.error (.pathNotFound path), [.pathCheck path])
  | some none => (.error .manifestError, [.pathCheck path])
  | some (some m) =>
      (.ok ⟨name, m.package.version, path, m, .Path⟩, [.pathCheck path])

/-- Reference string of a git declaration: branch, else tag, else rev, else
the literal `"HEAD"` (`dependency.rs` lines 138-141). -/
def git_ref_str (d : DetailedDependency) : String :=
  ((d.branch.orElse fun _ => d.tag).orElse fun _ => d.rev).getD "HEAD"

/-- `git_url.replace(['/', ':'], "_")`. -/
def sanitizeUrl (s : String) : String :=
  String.mk (s.data.map fun c => if c = '/' || c = ':' then '_' else c)

/-- `ref_str.replace('/', "_")`. -/
def sanitizeRef (s : String) : String :=
  String.mk (s.data.map fun c => if c = '/' then '_' else c)

/-- Cache identity of a git dependency (`dependency.rs` lines 143-146). -/
def git_cache_key (url ref : String) : String :=
  sanitizeUrl url ++ "-" ++ sanitizeRef ref

/-- `resolve_git_dependency` from `dependency.rs`: serve from cache when the
identity is present; otherwise clone (passing only the branch), then checkout
the rev if one was declared, and load the manifest from the resulting
directory via `load_cached_dependency`. -/
def resolve_git_dependency (env : Env) (st : CacheSt) (_name url : String)
    (d : DetailedDependency) :
    Except ResolveError DependencyInfo × CacheSt × List Event :=
  let cache_key := git_cache_key url (git_ref_str d)
  if (lookupKV st cache_key).isSome then
    (load_cached_dependency st cache_key, st, [])
  else
    match env.cloneAt (url, d.branch) with
    | .fail => (.error .cloneFail, st, [.clone url])
    | .ok dir =>
        match d.rev with
        | none =>
            let st' := insertKV st cache_key dir
            (load_cached_dependency st' cache_key, st', [.clone url])
        | some r =>
            match env.checkoutAt (url, d.branch, r) with
            | .fail => (.error .checkoutFail, insertKV st cache_key dir, [.clone url])
            | .ok dir2 =>
                let st' := insertKV st cache_key dir2
                (load_cached_dependency st' cache_key, st', [.clone url])

/-- `resolve_single` from `dependency.rs`: variant selection with precedence
path, then git, then version; a detailed declaration with none of the three
is invalid. -/
def resolve_single (env : Env) (st : CacheSt) (name : String) (dep : Dependency) :
    Except ResolveError DependencyInfo × CacheSt × List Event :=
  match dep with
  | .Simple version => resolve_registry_dependency env st name version
  | .Detailed d =>
      match d.path with
      | some p =>
          let r := resolve_path_dependency env name p
          (r.1, st, r.2)
      | none =>
          match d.git with
          | some g => resolve_git_dependency env st name g d
          | none =>
              match d.version with
              | some v => resolve_registry_dependency env st name v
              | none => (.error (.specError name), st, [])

/-- `ResolvedDependencies` from `dependency.rs`, as an association list. -/
abbrev ResultSet := List (String × DependencyInfo)

/-- `ResolvedDependencies::contains`. -/
def rsContains (res : ResultSet) (name : String) : Bool :=
  (lookupKV res name).isSome

/-- `ResolvedDependencies::add`. -/
def rsAdd (res : ResultSet) (name : String) (info : DependencyInfo) : ResultSet :=
  insertKV res name info

/-- A worklist entry: declared name, declaration, depth. -/
abbrev WorkItem := String × Dependency × Nat

/-- Number of dependency declarations of a loadable directory. -/
def manifestFanout : Option Manifest → Nat
  | some m => m.dependencies.length
  | none => 0

/-- Maximum of a list of naturals. -/
def listMax : List Nat → Nat
  | [] => 0
  | n :: rest => max n (listMax rest)

/-- Largest dependency fanout among directories currently in the cache. -/
def stBound (st : CacheSt) : Nat :=
  listMax (st.map fun kv => manifestFanout kv.2)

/-- Fanout of a registry outcome's extracted directory. -/
def regFanout : RegistryOutcome → Nat
  | .sendFail => 0
  | .notFound => 0
  | .extractFail dir => manifestFanout dir
  | .extracted dir => manifestFanout dir

/-- Fanout of a clone/checkout outcome's directory. -/
def cloneFanout : CloneRes → Nat
  | .fail => 0
  | .ok dir => manifestFanout dir

/-- Largest dependency fanout any manifest obtainable from the environment
can have. -/
def envBound (env : Env) : Nat :=
  max (listMax (env.download.map fun kv => regFanout kv.2))
    (max (listMax (env.fs.map fun kv => manifestFanout kv.2))
      (max (listMax (env.clone.map fun kv => cloneFanout kv.2))
           (listMax (env.checkout.map fun kv => cloneFanout kv.2))))

/-- Branching bound of the whole resolution state. -/
def envStBound (env : Env) (st : CacheSt) : Nat :=
  max (envBound env) (stBound st)

/-- Termination weight of one worklist entry at the given depth. -/
def depWeight (B depth : Nat) : Nat := (B + 1) ^ (102 - depth)

/-- Termination measure of a worklist. -/
def wlMeasure (B : Nat) (wl : List WorkItem) : Nat :=
  (wl.map fun e => depWeight B e.2.2).sum

/-- The worklist loop of `DependencyResolver::resolve` (`dependency.rs` lines
43-60): pop in FIFO order, fail past depth 100, skip already-resolved names,
otherwise fetch, enqueue the fetched manifest's own dependencies at depth+1,
and record the result. The fuel argument is an embedding artifact; `resolve`
supplies a provably sufficient amount. -/
def resolveLoop (env : Env) :
    CacheSt → ResultSet → List WorkItem → Nat →
    Except ResolveError ResultSet × CacheSt × List Event
  | st, _res, _wl, 0 => (.error .fuelExhausted, st, [])
  | st, res, [], _ + 1 => (.ok res, st, [])
  | st, res, (name, dep, depth) :: rest, fuel + 1 =>
    if depth > 100 then (.error .depthExceeded, st, [])
    else if rsContains res name then resolveLoop env st res rest fuel
    else
      match resolve_single env st name dep with
      | (.error e, st', ev) => (.error e, st', ev)
      | (.ok info, st', ev) =>
          let children := info.manifest.dependencies.map fun td => (td.1, td.2, depth + 1)
          let rest_result := resolveLoop env st' (rsAdd res name info) (rest ++ children) fuel
          (rest_result.1, rest_result.2.1, ev ++ rest_result.2.2)

/-- The initial worklist: every direct (production) dependency of the
top-level manifest at depth 0. -/
def seedWorklist (m : Manifest) : List WorkItem :=
  m.dependencies.map fun nd => (nd.1, nd.2, 0)

/-- Fuel that is provably sufficient for the worklist loop. -/
def fuelFor (env : Env) (st : CacheSt) (wl : List WorkItem) : Nat :=
  wlMeasure (envStBound env st) wl + 1

/-- `DependencyResolver::resolve` from `dependency.rs`. -/
def resolve (env : Env) (st : CacheSt) (m : Manifest) :
    Except ResolveError ResultSet × CacheSt × List Event :=
  resolveLoop env st [] (seedWorklist m) (fuelFor env st (seedWorklist m))

/-- A locked dependency entry (`LockedDependency` in `lockfile.rs`). -/
structure LockedDependency where
  name : String
  version : String
  source : String
  source_url : Option String
  checksum : Option String
deriving DecidableEq

/-- The lockfile (`Lockfile` in `lockfile.rs`); the dependency table is an
association list. -/
structure Lockfile where
  version : Nat
  dependencies : List (String × LockedDependency)
deriving DecidableEq

/-- The source string written to the lockfile for each source kind
(`lockfile.rs` lines 71-75). -/
def sourceStr : DependencySource → String
  | .Registry => "registry"
  | .Path => "path"
  | .Git => "git"

/-- `Lockfile::from_resolved` from `lockfile.rs`: a fresh lockfile of version
1 with one entry per resolved record, source URL and checksum left unset. -/
def from_resolved (resolved : ResultSet) : Lockfile :=
  { version := 1
    dependencies := resolved.foldl
      (fun acc ni =>
        insertKV acc ni.1 ⟨ni.2.name, ni.2.version, sourceStr ni.2.source, none, none⟩)
      [] }

/-! ## Lockfile serialization

`Lockfile::save` / `Lockfile::load` delegate the text encoding to the `toml`
crate's serde derive; the codec is modelled at the level of the TOML document
tree that derive produces: fields in declaration order, `Option` fields
omitted when `None` and defaulting to `None` when absent, the `u32` version
field range-checked on the way in. -/

/-- A TOML document value (the fragment the lockfile uses). -/
inductive TomlVal where
  | str (s : String)
  | int (n : Nat)
  | table (kvs : List (String × TomlVal))

/-- Serde serialization of one `LockedDependency`: required string fields in
declaration order, `None` options omitted. -/
def serialize_locked (d : LockedDependency) : TomlVal :=
  .table ([("name", .str d.name), ("version", .str d.version), ("source", .str d.source)]
    ++ (match d.source_url with | some u => [("source_url", .str u)] | none => [])
    ++ (match d.checksum with | some c => [("checksum", .str c)] | none => []))

/-- Serde serialization of a `Lockfile`. -/
def serialize_lockfile (l : Lockfile) : TomlVal :=
  .table [("version", .int l.version),
          ("dependencies", .table (l.dependencies.map fun kd => (kd.1, serialize_locked kd.2)))]

/-- Read a required string field. -/
def asStr : Option TomlVal → Option String
  | some (.str s) => some s
  | _ => none

/-- Read an optional string field: absent means `none`. -/
def asOptStr : Option TomlVal → Option (Option String)
  | some (.str s) => some (some s)
  | none => some none
  | _ => none

/-- Serde deserialization of one `LockedDependency`. -/
def deserialize_locked : TomlVal → Option LockedDependency
  | .table kvs => do
      let name ← asStr (lookupKV kvs "name")
      let version ← asStr (lookupKV kvs "version")
      let source ← asStr (lookupKV kvs "source")
      let source_url ← asOptStr (lookupKV kvs "source_url")
      let checksum ← asOptStr (lookupKV kvs "checksum")
      some ⟨name, version, source, source_url, checksum⟩
  | _ => none

/-- Deserialize the dependency table entry by entry. -/
def deserialize_deps : List (String × TomlVal) → Option (List (String × LockedDependency))
  | [] => some []
  | (k, v) :: rest => do
      let d ← deserialize_locked v
      let ds ← deserialize_deps rest
      some ((k, d) :: ds)

/-- Serde deserialization of a `Lockfile` (both fields are required; the
version must fit in a `u32`). -/
def deserialize_lockfile : TomlVal → Option Lockfile
  | .table kvs =>
      match lookupKV kvs "version" with
      | some (.int n) =>
          if n < 2 ^ 32 then
            match lookupKV kvs "dependencies" with
            | some (.table deps) => do
                let ds ← deserialize_deps deps
                some ⟨n, ds⟩
            | _ => none
          else none
      | _ => none
  | _ => none


/-! ## Concrete scenarios referenced by the claim theorems -/
/-- Build a minimal valid manifest for concrete scenarios. -/
def mkManifest (name version : String) (deps : List (String × Dependency)) : Manifest :=
  { package := ⟨name, version, [], none, none, none, none, "2024"⟩
    dependencies := deps
    dev_dependencies := []
    build := ⟨2, false, 64⟩ }

/-- Version retained for a name by a resolution outcome. -/
def resolvedVersion (r : Except ResolveError ResultSet) (name : String) : Option String :=
  match r with
  | .ok rs => (lookupKV rs name).map fun i => i.version
  | .error _ => none

/-- Source kind of a single-fetch outcome. -/
def sourceOf (r : Except ResolveError DependencyInfo) : Option DependencySource :=
  match r with
  | .ok info => some info.source
  | .error _ => none

/-- Name field of a single-fetch outcome. -/
def nameOf (r : Except ResolveError DependencyInfo) : Option String :=
  match r with
  | .ok info => some info.name
  | .error _ => none

/-- Loaded manifest's package name of a single-fetch outcome. -/
def manifestNameOf (r : Except ResolveError DependencyInfo) : Option String :=
  match r with
  | .ok info => some info.manifest.package.name
  | .error _ => none

/-- Result set of a resolution outcome (empty on error). -/
def rsOf (r : Except ResolveError ResultSet) : ResultSet :=
  match r with
  | .ok rs => rs
  | .error _ => []

/-- Diamond scenario: A and B both pull in C, at different versions. -/
def diamondEnv : Env :=
  { download :=
      [ (("A", "1.0.0"), .extracted (some (mkManifest "A" "1.0.0" [("C", .Simple "1.0.0")])))
      , (("B", "1.0.0"), .extracted (some (mkManifest "B" "1.0.0" [("C", .Simple "2.0.0")])))
      , (("C", "1.0.0"), .extracted (some (mkManifest "C" "1.0.0" [])))
      , (("C", "2.0.0"), .extracted (some (mkManifest "C" "2.0.0" [])))]
    fs := [], clone := [], checkout := [] }

/-- Top-level manifest of the diamond scenario; A precedes B. -/
def diamondManifest : Manifest :=
  mkManifest "root" "1.0.0" [("A", .Simple "1.0.0"), ("B", .Simple "1.0.0")]

/-- A path declaration pointing at `/p`. -/
def selfDep : Dependency := .Detailed ⟨none, none, none, none, none, some "/p", none⟩

/-- A manifest that declares a path dependency on its own directory. -/
def selfManifest : Manifest := mkManifest "selfpkg" "0.1.0" [("me", selfDep)]

/-- Environment where `/p` holds the self-referential package. -/
def selfEnv : Env := ⟨[], [("/p", some selfManifest)], [], []⟩

/-- Registry package names `p0`, `p1`, ... of the long-cycle scenario. -/
def pname (i : Nat) : String := "p" ++ toString i

/-- Manifest of cycle member `i`, depending on member `i + 1` (mod 102). -/
def chainManifest (i : Nat) : Manifest :=
  mkManifest (pname i) "1.0.0" [(pname ((i + 1) % 102), .Simple "1.0.0")]

/-- Environment holding a 102-package registry dependency cycle. -/
def cycleEnv : Env :=
  ⟨(List.range 102).map fun i => ((pname i, "1.0.0"), .extracted (some (chainManifest i))),
   [], [], []⟩

/-- Top-level manifest entering the 102-package cycle. -/
def cycleRoot : Manifest := mkManifest "root" "1.0.0" [(pname 0, .Simple "1.0.0")]

/-- A git declaration with only the URL set. -/
def gitDet : DetailedDependency := ⟨none, some "http://g/r", none, none, none, none, none⟩

/-- Environment where cloning that URL yields package `gpkg`. -/
def gitEnv : Env :=
  ⟨[], [], [(("http://g/r", none), .ok (some (mkManifest "gpkg" "1.0.0" [])))], []⟩

/-- Top-level manifest declaring the git dependency under key `gdep`. -/
def gitRoot : Manifest := mkManifest "root" "1.0.0" [("gdep", .Detailed gitDet)]

/-- Environment where `/lib` holds a package whose manifest name differs from
the key it is declared under. -/
def aliasEnv : Env := ⟨[], [("/lib", some (mkManifest "realname" "2.0.0" []))], [], []⟩

/-- Git declaration with URL `srv/repo` and no ref. -/
def c9DetA : DetailedDependency := ⟨none, some "srv/repo", none, none, none, none, none⟩

/-- Git declaration with URL `srv:repo` and no ref. -/
def c9DetB : DetailedDependency := ⟨none, some "srv:repo", none, none, none, none, none⟩

/-- Environment where only `srv/repo` is cloneable. -/
def c9Env : Env :=
  ⟨[], [], [(("srv/repo", none), .ok (some (mkManifest "gp" "3.0.0" [])))], []⟩

/-- Registry environment for the download-once scenario. -/
def c6Env : Env :=
  ⟨[(("pkg", "1.0.0"), .extracted (some (mkManifest "pkg" "1.0.0" [])))], [], [], []⟩

/-- Registry environment where the archive served for declared key `alias`
contains a package whose manifest names itself `pkg`. -/
def c7Env : Env :=
  ⟨[(("alias", "1.0.0"), .extracted (some (mkManifest "pkg" "1.0.0" [])))], [], [], []⟩

/-- Detailed declaration with only a path. -/
def onlyPathDet : DetailedDependency := ⟨none, none, none, none, none, some "/lib", none⟩

/-- Detailed declaration with only a git URL. -/
def onlyGitDet : DetailedDependency := gitDet

/-- Detailed declaration with only a version. -/
def onlyVersionDet : DetailedDependency := ⟨some "1.0.0", none, none, none, none, none, none⟩

/-- Detailed declaration with none of version, git, path. -/
def noneDet : DetailedDependency := ⟨none, none, none, none, none, none, none⟩

/-- A concrete resolved record used to exercise the skip branch. -/
def exInfo : DependencyInfo :=
  ⟨"x", "1.0.0", "/x", mkManifest "x" "1.0.0" [], .Registry⟩

/-! ## Bounds on the resolver state, used to prove the fuel sufficient -/

theorem listMax_le_of_mem {a : Nat} {l : List Nat} (h : a ∈ l) : a ≤ listMax l := by
  induction l with
  | nil => cases h
  | cons b rest ih =>
      rcases List.mem_cons.mp h with rfl | h'
      · exact le_max_left _ _
      · exact (ih h').trans (le_max_right _ _)

theorem lookupKV_mem {α β : Type} [DecidableEq α] :
    ∀ (l : List (α × β)) (k : α) (v : β), lookupKV l k = some v → (k, v) ∈ l := by
  intro l
  induction l with
  | nil => intro k v h; simp [lookupKV] at h
  | cons kv rest ih =>
      intro k v h
      rw [lookupKV] at h
      by_cases hk : k = kv.1
      · subst hk
        simp at h
        subst h
        exact List.mem_cons_self _ _
      · rw [if_neg hk] at h
        exact List.mem_cons_of_mem _ (ih _ _ h)

theorem lookup_le_listMax {α β : Type} [DecidableEq α] (f : β → Nat)
    (l : List (α × β)) (k : α) (v : β) (h : lookupKV l k = some v) :
    f v ≤ listMax (l.map fun kv => f kv.2) := by
  apply listMax_le_of_mem
  exact List.mem_map.mpr ⟨(k, v), lookupKV_mem l k v h, rfl⟩

theorem listMax_insertKV {α β : Type} [DecidableEq α] (f : β → Nat) :
    ∀ (l : List (α × β)) (k : α) (v : β),
      listMax ((insertKV l k v).map fun kv => f kv.2)
        ≤ max (listMax (l.map fun kv => f kv.2)) (f v) := by
  intro l
  induction l with
  | nil => intro k v; simp [insertKV, listMax]
  | cons kv rest ih =>
      intro k v
      rw [insertKV]
      by_cases hk : k = kv.1
      · rw [if_pos hk]
        simp only [List.map_cons, listMax]
        omega
      · rw [if_neg hk]
        simp only [List.map_cons, listMax]
        have := ih k v
        omega

theorem stBound_insertKV (st : CacheSt) (k : String) (dir : Option Manifest) :
    stBound (insertKV st k dir) ≤ max (stBound st) (manifestFanout dir) :=
  listMax_insertKV manifestFanout st k dir

theorem regFanout_downloadAt (env : Env) (k : String × String) :
    regFanout (env.downloadAt k) ≤ envBound env := by
  rw [Env.downloadAt]
  cases h : lookupKV env.download k with
  | none => simp [regFanout]
  | some v =>
      have := lookup_le_listMax regFanout env.download k v h
      simp only [Option.getD]
      unfold envBound
      omega

theorem cloneFanout_cloneAt (env : Env) (k : String × Option String) :
    cloneFanout (env.cloneAt k) ≤ envBound env := by
  rw [Env.cloneAt]
  cases h : lookupKV env.clone k with
  | none => simp [cloneFanout]
  | some v =>
      have := lookup_le_listMax cloneFanout env.clone k v h
      simp only [Option.getD]
      unfold envBound
      omega

theorem cloneFanout_checkoutAt (env : Env) (k : String × Option String × String) :
    cloneFanout (env.checkoutAt k) ≤ envBound env := by
  rw [Env.checkoutAt]
  cases h : lookupKV env.checkout k with
  | none => simp [cloneFanout]
  | some v =>
      have := lookup_le_listMax cloneFanout env.checkout k v h
      simp only [Option.getD]
      unfold envBound
      omega

theorem fsFanout_lookup (env : Env) (p : String) (dir : Option Manifest)
    (h : lookupKV env.fs p = some dir) : manifestFanout dir ≤ envBound env := by
  have := lookup_le_listMax manifestFanout env.fs p dir h
  unfold envBound
  omega

theorem stBound_registry (env : Env) (st : CacheSt) (name version : String) :
    stBound (resolve_registry_dependency env st name version).2.1 ≤ envStBound env st := by
  rw [resolve_registry_dependency]
  have hdl := regFanout_downloadAt env (name, version)
  split
  · exact le_max_right _ _
  · cases h : env.downloadAt (name, version) with
    | sendFail => exact le_max_right _ _
    | notFound => exact le_max_right _ _
    | extractFail dir =>
        have h1 := stBound_insertKV st (name ++ "-" ++ version) dir
        rw [h] at hdl
        simp only [regFanout] at hdl
        simp only [envStBound]
        omega
    | extracted dir =>
        have h1 := stBound_insertKV st (name ++ "-" ++ version) dir
        rw [h] at hdl
        simp only [regFanout] at hdl
        simp only [envStBound]
        omega

theorem stBound_git (env : Env) (st : CacheSt) (name url : String)
    (d : DetailedDependency) :
    stBound (resolve_git_dependency env st name url d).2.1 ≤ envStBound env st := by
  rw [resolve_git_dependency]
  have hcl := cloneFanout_cloneAt env (url, d.branch)
  split
  · exact le_max_right _ _
  · cases h : env.cloneAt (url, d.branch) with
    | fail => exact le_max_right _ _
    | ok dir =>
        rw [h] at hcl
        simp only [cloneFanout] at hcl
        have h1 := stBound_insertKV st (git_cache_key url (git_ref_str d)) dir
        cases hrev : d.rev with
        | none =>
            simp only [envStBound]
            omega
        | some r =>
            have hck := cloneFanout_checkoutAt env (url, d.branch, r)
            cases h2 : env.checkoutAt (url, d.branch, r) with
            | fail =>
                simp only [h2, envStBound]
                omega
            | ok dir2 =>
                rw [h2] at hck
                simp only [cloneFanout] at hck
                have h3 := stBound_insertKV st (git_cache_key url (git_ref_str d)) dir2
                simp only [h2, envStBound]
                omega

theorem stBound_resolve_single (env : Env) (st : CacheSt) (name : String)
    (dep : Dependency) :
    stBound (resolve_single env st name dep).2.1 ≤ envStBound env st := by
  cases dep with
  | Simple v => exact stBound_registry env st name v
  | Detailed d =>
      simp only [resolve_single]
      cases hp : d.path with
      | some p => exact le_max_right _ _
      | none =>
          cases hg : d.git with
          | some g => exact stBound_git env st name g d
          | none =>
              cases hv : d.version with
              | some v => exact stBound_registry env st name v
              | none => exact le_max_right _ _

theorem envStBound_resolve_single (env : Env) (st : CacheSt) (name : String)
    (dep : Dependency) :
    envStBound env (resolve_single env st name dep).2.1 ≤ envStBound env st :=
  max_le (le_max_left _ _) (stBound_resolve_single env st name dep)

theorem load_cached_fanout (st : CacheSt) (p : String) (info : DependencyInfo)
    (h : load_cached_dependency st p = .ok info) :
    info.manifest.dependencies.length ≤ stBound st := by
  rw [load_cached_dependency] at h
  cases hl : lookupKV st p with
  | none => rw [hl] at h; cases h
  | some dir =>
      cases dir with
      | none => rw [hl] at h; cases h
      | some m =>
          rw [hl] at h
          cases h
          have := lookup_le_listMax manifestFanout st p (some m) hl
          simpa [manifestFanout, stBound] using this

theorem registry_ok_fanout (env : Env) (st : CacheSt) (name version : String)
    (info : DependencyInfo)
    (h : (resolve_registry_dependency env st name version).1 = .ok info) :
    info.manifest.dependencies.length ≤ envStBound env st := by
  rw [resolve_registry_dependency] at h
  have hdl := regFanout_downloadAt env (name, version)
  split at h
  · exact (load_cached_fanout st _ info h).trans (le_max_right _ _)
  · cases hd : env.downloadAt (name, version) with
    | sendFail => rw [hd] at h; cases h
    | notFound => rw [hd] at h; cases h
    | extractFail dir => rw [hd] at h; cases h
    | extracted dir =>
        rw [hd] at h
        simp only at h
        have h1 := load_cached_fanout _ _ info h
        have h2 := stBound_insertKV st (name ++ "-" ++ version) dir
        rw [hd] at hdl
        simp only [regFanout] at hdl
        simp only [envStBound]
        omega

theorem git_ok_fanout (env : Env) (st : CacheSt) (name url : String)
    (d : DetailedDependency) (info : DependencyInfo)
    (h : (resolve_git_dependency env st name url d).1 = .ok info) :
    info.manifest.dependencies.length ≤ envStBound env st := by
  rw [resolve_git_dependency] at h
  have hcl := cloneFanout_cloneAt env (url, d.branch)
  split at h
  · exact (load_cached_fanout st _ info h).trans (le_max_right _ _)
  · cases hc : env.cloneAt (url, d.branch) with
    | fail => rw [hc] at h; cases h
    | ok dir =>
        rw [hc] at h
        simp only at h
        rw [hc] at hcl
        simp only [cloneFanout] at hcl
        cases hrev : d.rev with
        | none =>
            rw [hrev] at h
            simp only at h
            have h1 := load_cached_fanout _ _ info h
            have h2 := stBound_insertKV st (git_cache_key url (git_ref_str d)) dir
            simp only [envStBound]
            omega
        | some r =>
            rw [hrev] at h
            simp only at h
            have hck := cloneFanout_checkoutAt env (url, d.branch, r)
            cases h2 : env.checkoutAt (url, d.branch, r) with
            | fail => rw [h2] at h; cases h
            | ok dir2 =>
                rw [h2] at h
                rw [h2] at hck
                simp only [cloneFanout] at hck
                simp only at h
                have h1 := load_cached_fanout _ _ info h
                have h3 := stBound_insertKV st (git_cache_key url (git_ref_str d)) dir2
                simp only [envStBound]
                omega

theorem path_ok_fanout (env : Env) (name p : String) (info : DependencyInfo)
    (h : (resolve_path_dependency env name p).1 = .ok info) :
    info.manifest.dependencies.length ≤ envStBound env st := by
  rw [resolve_path_dependency] at h
  cases hl : lookupKV env.fs p with
  | none => rw [hl] at h; cases h
  | some dir =>
      cases dir with
      | none => rw [hl] at h; cases h
      | some m =>
          rw [hl] at h
          simp only at h
          cases h
          have := fsFanout_lookup env p (some m) hl
          simp only [manifestFanout] at this
          exact le_trans this (le_max_left _ _)

theorem resolve_single_ok_fanout (env : Env) (st : CacheSt) (name : String)
    (dep : Dependency) (info : DependencyInfo)
    (h : (resolve_single env st name dep).1 = .ok info) :
    info.manifest.dependencies.length ≤ envStBound env st := by
  cases dep with
  | Simple v => exact registry_ok_fanout env st name v info h
  | Detailed d =>
      simp only [resolve_single] at h
      cases hp : d.path with
      | some p =>
          rw [hp] at h
          exact path_ok_fanout env name p info h
      | none =>
          rw [hp] at h
          cases hg : d.git with
          | some g =>
              rw [hg] at h
              exact git_ok_fanout env st name g d info h
          | none =>
              rw [hg] at h
              cases hv : d.version with
              | some v =>
                  rw [hv] at h
                  exact registry_ok_fanout env st name v info h
              | none => rw [hv] at h; cases h

theorem load_cached_ne_fuel (st : CacheSt) (p : String) :
    load_cached_dependency st p ≠ .error .fuelExhausted := by
  rw [load_cached_dependency]
  cases lookupKV st p with
  | none => simp
  | some dir => cases dir <;> simp

theorem registry_ne_fuel (env : Env) (st : CacheSt) (name version : String) :
    (resolve_registry_dependency env st name version).1 ≠ .error .fuelExhausted := by
  rw [resolve_registry_dependency]
  split
  · exact load_cached_ne_fuel st _
  · cases env.downloadAt (name, version) <;> simp [load_cached_ne_fuel]

theorem git_ne_fuel (env : Env) (st : CacheSt) (name url : String)
    (d : DetailedDependency) :
    (resolve_git_dependency env st name url d).1 ≠ .error .fuelExhausted := by
  rw [resolve_git_dependency]
  split
  · exact load_cached_ne_fuel st _
  · cases env.cloneAt (url, d.branch) with
    | fail => simp
    | ok dir =>
        cases d.rev with
        | none => simp [load_cached_ne_fuel]
        | some r =>
            cases hck : env.checkoutAt (url, d.branch, r) <;>
              simp [hck, load_cached_ne_fuel]

theorem path_ne_fuel (env : Env) (name p : String) :
    (resolve_path_dependency env name p).1 ≠ .error .fuelExhausted := by
  rw [resolve_path_dependency]
  cases lookupKV env.fs p with
  | none => simp
  | some dir => cases dir <;> simp

theorem resolve_single_ne_fuel (env : Env) (st : CacheSt) (name : String)
    (dep : Dependency) :
    (resolve_single env st name dep).1 ≠ .error .fuelExhausted := by
  cases dep with
  | Simple v => exact registry_ne_fuel env st name v
  | Detailed d =>
      simp only [resolve_single]
      cases d.path with
      | some p => exact path_ne_fuel env name p
      | none =>
          cases d.git with
          | some g => exact git_ne_fuel env st name g d
          | none =>
              cases d.version with
              | some v => exact registry_ne_fuel env st name v
              | none => simp

/-! ## Fuel sufficiency: the loop never exhausts the fuel `fuelFor` grants -/

theorem depWeight_pos (B depth : Nat) : 0 < depWeight B depth :=
  Nat.pos_pow_of_pos _ (Nat.succ_pos B)

theorem depWeight_mono {B1 B2 : Nat} (h : B1 ≤ B2) (depth : Nat) :
    depWeight B1 depth ≤ depWeight B2 depth :=
  Nat.pow_le_pow_left (by omega) _

theorem wlMeasure_cons (B : Nat) (e : WorkItem) (wl : List WorkItem) :
    wlMeasure B (e :: wl) = depWeight B e.2.2 + wlMeasure B wl := by
  simp [wlMeasure]

theorem wlMeasure_append (B : Nat) (l1 l2 : List WorkItem) :
    wlMeasure B (l1 ++ l2) = wlMeasure B l1 + wlMeasure B l2 := by
  simp [wlMeasure]

theorem wlMeasure_mono {B1 B2 : Nat} (h : B1 ≤ B2) (wl : List WorkItem) :
    wlMeasure B1 wl ≤ wlMeasure B2 wl := by
  induction wl with
  | nil => simp [wlMeasure]
  | cons e rest ih =>
      rw [wlMeasure_cons, wlMeasure_cons]
      exact Nat.add_le_add (depWeight_mono h _) ih

theorem wlMeasure_children (B depth : Nat) (deps : List (String × Dependency)) :
    wlMeasure B (deps.map fun td => (td.1, td.2, depth + 1))
      = deps.length * depWeight B (depth + 1) := by
  induction deps with
  | nil => simp [wlMeasure]
  | cons e rest ih =>
      simp only [List.map_cons, wlMeasure_cons, List.length_cons, ih]
      ring

theorem depWeight_step {B depth : Nat} (h : depth ≤ 100) :
    B * depWeight B (depth + 1) < depWeight B depth := by
  have h1 : 102 - depth = (102 - (depth + 1)) + 1 := by omega
  rw [depWeight, depWeight, h1, pow_succ]
  have h2 : 0 < (B + 1) ^ (102 - (depth + 1)) := Nat.pos_pow_of_pos _ (Nat.succ_pos B)
  calc B * (B + 1) ^ (102 - (depth + 1))
      < (B + 1) * (B + 1) ^ (102 - (depth + 1)) := by
        exact Nat.mul_lt_mul_of_lt_of_le (Nat.lt_succ_self B) (le_refl _) h2
    _ = (B + 1) ^ (102 - (depth + 1)) * (B + 1) := Nat.mul_comm _ _

/-- With fuel exceeding the worklist measure, the loop never runs out of
fuel: the Rust loop, which has no fuel, terminates on every input this
embedding models. -/
theorem resolveLoop_fuel_sufficient :
    ∀ (fuel : Nat) (env : Env) (st : CacheSt) (res : ResultSet) (wl : List WorkItem),
      wlMeasure (envStBound env st) wl < fuel →
      (resolveLoop env st res wl fuel).1 ≠ .error .fuelExhausted := by
  intro fuel
  induction fuel with
  | zero => intro env st res wl h; omega
  | succ f ih =>
      intro env st res wl h
      match wl with
      | [] => simp [resolveLoop]
      | (name, dep, depth) :: rest =>
          rw [resolveLoop]
          split
          · simp
          · split
            · -- already-resolved name: the entry is dropped
              apply ih
              have hw := depWeight_pos (envStBound env st) depth
              rw [wlMeasure_cons] at h
              simp only at h
              omega
            · -- fetch the dependency and enqueue its children
              rcases hrs : resolve_single env st name dep with ⟨r, st', ev⟩
              cases r with
              | error e =>
                  have hne := resolve_single_ne_fuel env st name dep
                  rw [hrs] at hne
                  simpa using hne
              | ok info =>
                  simp only
                  have hB : envStBound env st' ≤ envStBound env st := by
                    have := envStBound_resolve_single env st name dep
                    rw [hrs] at this
                    exact this
                  have hfan : info.manifest.dependencies.length ≤ envStBound env st := by
                    have := resolve_single_ok_fanout env st name dep info
                    rw [hrs] at this
                    exact this rfl
                  apply ih
                  have hdepth : depth ≤ 100 := by omega
                  have h1 : wlMeasure (envStBound env st')
                        (rest ++ info.manifest.dependencies.map fun td => (td.1, td.2, depth + 1))
                      ≤ wlMeasure (envStBound env st)
                        (rest ++ info.manifest.dependencies.map fun td => (td.1, td.2, depth + 1)) :=
                    wlMeasure_mono hB _
                  have h2 : wlMeasure (envStBound env st)
                        (rest ++ info.manifest.dependencies.map fun td => (td.1, td.2, depth + 1))
                      = wlMeasure (envStBound env st) rest
                        + info.manifest.dependencies.length
                          * depWeight (envStBound env st) (depth + 1) := by
                    rw [wlMeasure_append, wlMeasure_children]
                  have h3 : info.manifest.dependencies.length
                        * depWeight (envStBound env st) (depth + 1)
                      ≤ envStBound env st * depWeight (envStBound env st) (depth + 1) :=
                    Nat.mul_le_mul_right _ hfan
                  have h4 : envStBound env st * depWeight (envStBound env st) (depth + 1)
                      < depWeight (envStBound env st) depth :=
                    depWeight_step hdepth
                  rw [wlMeasure_cons] at h
                  simp only at h
                  omega

/-! ## Lockfile codec round trip -/

theorem deserialize_serialize_locked (d : LockedDependency) :
    deserialize_locked (serialize_locked d) = some d := by
  obtain ⟨n, v, s, su, c⟩ := d
  cases su <;> cases c <;> rfl

theorem deserialize_serialize_deps (l : List (String × LockedDependency)) :
    deserialize_deps (l.map fun kd => (kd.1, serialize_locked kd.2)) = some l := by
  induction l with
  | nil => rfl
  | cons kd rest ih =>
      simp [deserialize_deps, deserialize_serialize_locked, ih]

theorem lockfile_roundtrip (l : Lockfile) (hv : l.version < 2 ^ 32) :
    deserialize_lockfile (serialize_lockfile l) = some l := by
  obtain ⟨v, deps⟩ := l
  simp only at hv
  have hv' : v < 4294967296 := by omega
  simp [serialize_lockfile, deserialize_lockfile, lookupKV,
    deserialize_serialize_deps, hv']

theorem insertKV_eq_append {α β : Type} [DecidableEq α] :
    ∀ (l : List (α × β)) (k : α) (v : β), k ∉ l.map Prod.fst →
      insertKV l k v = l ++ [(k, v)] := by
  intro l
  induction l with
  | nil => intro k v _; rfl
  | cons kv rest ih =>
      intro k v hk
      simp only [List.map_cons, List.mem_cons] at hk
      push_neg at hk
      rw [insertKV, if_neg hk.1, ih k v hk.2]
      simp

theorem foldl_insertKV_eq_append {β : Type} (f : String × β → LockedDependency) :
    ∀ (rs : List (String × β)) (acc : List (String × LockedDependency)),
      (rs.map Prod.fst).Nodup →
      (∀ k, k ∈ rs.map Prod.fst → k ∉ acc.map Prod.fst) →
      rs.foldl (fun a ni => insertKV a ni.1 (f ni)) acc
        = acc ++ rs.map fun ni => (ni.1, f ni) := by
  intro rs
  induction rs with
  | nil => intro acc _ _; simp
  | cons ni rest ih =>
      intro acc hnd hdisj
      simp only [List.map_cons, List.nodup_cons] at hnd
      simp only [List.foldl_cons]
      rw [insertKV_eq_append acc ni.1 (f ni)
        (hdisj ni.1 (by simp))]
      rw [ih (acc ++ [(ni.1, f ni)]) hnd.2]
      · simp
      · intro k hk
        simp only [List.map_append, List.mem_append]
        push_neg
        constructor
        · exact hdisj k (by simp [hk])
        · simp only [List.map_cons, List.map_nil, List.mem_singleton]
          intro hkk
          rw [hkk] at hk
          exact hnd.1 hk

theorem from_resolved_deps (rs : ResultSet) (h : (rs.map Prod.fst).Nodup) :
    (from_resolved rs).dependencies
      = rs.map fun ni => (ni.1, ⟨ni.2.name, ni.2.version, sourceStr ni.2.source, none, none⟩) := by
  rw [from_resolved]
  simpa using foldl_insertKV_eq_append
    (fun ni => ⟨ni.2.name, ni.2.version, sourceStr ni.2.source, none, none⟩) rs [] h
    (by intro k _ hk; simp at hk)

/-! ## Helper lemmas for the claim theorems -/

theorem lookupKV_insertKV_self {α β : Type} [DecidableEq α] :
    ∀ (l : List (α × β)) (k : α) (v : β), lookupKV (insertKV l k v) k = some v := by
  intro l
  induction l with
  | nil => intro k v; simp [insertKV, lookupKV]
  | cons kv rest ih =>
      intro k v
      rw [insertKV]
      by_cases hk : k = kv.1
      · rw [if_pos hk, lookupKV, if_pos rfl]
      · rw [if_neg hk, lookupKV, if_neg hk]
        exact ih k v

theorem load_cached_source (st : CacheSt) (p : String) (info : DependencyInfo)
    (h : load_cached_dependency st p = .ok info) : info.source = .Registry := by
  rw [load_cached_dependency] at h
  cases hl : lookupKV st p with
  | none => rw [hl] at h; cases h
  | some dir =>
      cases dir with
      | none => rw [hl] at h; cases h
      | some m => rw [hl] at h; cases h; rfl

theorem load_cached_name (st : CacheSt) (p : String) (info : DependencyInfo)
    (h : load_cached_dependency st p = .ok info) :
    info.name = info.manifest.package.name := by
  rw [load_cached_dependency] at h
  cases hl : lookupKV st p with
  | none => rw [hl] at h; cases h
  | some dir =>
      cases dir with
      | none => rw [hl] at h; cases h
      | some m => rw [hl] at h; cases h; rfl

theorem registry_ok_cached (env : Env) (st : CacheSt) (name version : String)
    (info : DependencyInfo)
    (h : (resolve_registry_dependency env st name version).1 = .ok info) :
    ∃ st2 p, load_cached_dependency st2 p = .ok info := by
  rw [resolve_registry_dependency] at h
  split at h
  · exact ⟨st, _, h⟩
  · cases hd : env.downloadAt (name, version) with
    | sendFail => rw [hd] at h; cases h
    | notFound => rw [hd] at h; cases h
    | extractFail dir => rw [hd] at h; cases h
    | extracted dir =>
        rw [hd] at h
        simp only at h
        exact ⟨_, _, h⟩

theorem git_ok_cached (env : Env) (st : CacheSt) (name url : String)
    (d : DetailedDependency) (info : DependencyInfo)
    (h : (resolve_git_dependency env st name url d).1 = .ok info) :
    ∃ st2 p, load_cached_dependency st2 p = .ok info := by
  rw [resolve_git_dependency] at h
  split at h
  · exact ⟨st, _, h⟩
  · cases hc : env.cloneAt (url, d.branch) with
    | fail => rw [hc] at h; cases h
    | ok dir =>
        rw [hc] at h
        simp only at h
        cases hrev : d.rev with
        | none =>
            rw [hrev] at h
            simp only at h
            exact ⟨_, _, h⟩
        | some r =>
            rw [hrev] at h
            simp only at h
            cases h2 : env.checkoutAt (url, d.branch, r) with
            | fail => rw [h2] at h; cases h
            | ok dir2 =>
                rw [h2] at h
                simp only at h
                exact ⟨_, _, h⟩

theorem path_ok_shape (env : Env) (name p : String) (info : DependencyInfo)
    (h : (resolve_path_dependency env name p).1 = .ok info) :
    info.name = name ∧ info.source = .Path := by
  rw [resolve_path_dependency] at h
  cases hl : lookupKV env.fs p with
  | none => rw [hl] at h; cases h
  | some dir =>
      cases dir with
      | none => rw [hl] at h; cases h
      | some m => rw [hl] at h; cases h; exact ⟨rfl, rfl⟩


/-! ## Claim theorems -/

/-- C2: during one resolve call, once a dependency name is present in the
ResultSet, every later worklist entry with that name is dropped without
fetching (the loop step is a pure pop, touching neither the cache state nor
the outside world); and in the diamond where direct dependencies A and B
transitively declare C at versions 1.0.0 and 2.0.0 respectively and A
precedes B, the retained C is version 1.0.0, the one reached first in
breadth-first order. -/
theorem quantum_c2 :
    (∀ (env : Env) (st : CacheSt) (res : ResultSet) (name : String) (dep : Dependency)
        (depth : Nat) (rest : List WorkItem) (fuel : Nat),
        rsContains res name = true → ¬depth > 100 →
        resolveLoop env st res ((name, dep, depth) :: rest) (fuel + 1)
          = resolveLoop env st res rest fuel) ∧
    resolvedVersion (resolve diamondEnv [] diamondManifest).1 "C" = some "1.0.0" := by
  constructor
  · intro env st res name dep depth rest fuel hc hd
    rw [resolveLoop, if_neg hd, if_pos hc]
  · decide

/-- C2 witness: a concrete skip step, with both hypotheses discharged at an
already-resolved name. -/
theorem quantum_c2_witness :
    resolveLoop diamondEnv [] [("x", exInfo)] [("x", .Simple "1.0.0", 0)] 3
      = resolveLoop diamondEnv [] [("x", exInfo)] [] 2 :=
  quantum_c2.1 diamondEnv [] [("x", exInfo)] "x" (.Simple "1.0.0") 0 [] 2
    (by decide) (by decide)

/-- C4 counterexample: a self-referential path dependency does not fail with
DepthExceeded; its second worklist occurrence is skipped by the
already-resolved check and the resolution succeeds. -/
theorem quantum_c4_counterexample :
    (resolve selfEnv [] selfManifest).1
        = .ok [("me", ⟨"me", "0.1.0", "/p", selfManifest, .Path⟩)] ∧
    (resolve selfEnv [] selfManifest).1 ≠ .error .depthExceeded := by
  constructor
  · decide
  · decide

set_option maxRecDepth 100000 in
/-- C4 (amended): resolve terminates on every input; any worklist entry whose
depth exceeds the fixed bound 100 makes the whole call fail immediately with
the depth-exceeded error, so a dependency cycle long enough to push the
traversal past the bound (here 102 packages) fails with DepthExceeded rather
than traversing forever — while a short cycle is cut by the dedup check
instead (see the counterexample). -/
theorem quantum_c4 :
    (∀ (env : Env) (st : CacheSt) (res : ResultSet) (name : String) (dep : Dependency)
        (depth : Nat) (rest : List WorkItem) (fuel : Nat),
        100 < depth →
        resolveLoop env st res ((name, dep, depth) :: rest) (fuel + 1)
          = (.error .depthExceeded, st, [])) ∧
    (∀ (env : Env) (st : CacheSt) (m : Manifest),
        (resolve env st m).1 ≠ .error .fuelExhausted) ∧
    (resolve cycleEnv [] cycleRoot).1 = .error .depthExceeded := by
  refine ⟨?_, ?_, ?_⟩
  · intro env st res name dep depth rest fuel hd
    rw [resolveLoop, if_pos hd]
  · intro env st m
    exact resolveLoop_fuel_sufficient _ env st [] (seedWorklist m)
      (Nat.lt_succ_self _)
  · decide

/-- C4 witness: a depth-101 entry fails immediately. -/
theorem quantum_c4_witness :
    100 < 101 ∧
    resolveLoop diamondEnv [] [] [("x", .Simple "1.0.0", 101)] 1
      = (.error .depthExceeded, [], []) :=
  ⟨by decide, quantum_c4.1 diamondEnv [] [] "x" (.Simple "1.0.0") 101 [] 0 (by decide)⟩

/-- C8: resolve depends only on production dependencies — two top-level
manifests that differ only in their dev-dependencies table produce
identical resolution outcomes (result set, cache state, and I/O events);
dev-dependencies never seed or join the traversal. -/
theorem quantum_c8 (env : Env) (st : CacheSt) (pkg : PackageMetadata)
    (deps devA devB : List (String × Dependency)) (bld : BuildConfig) :
    resolve env st ⟨pkg, deps, devA, bld⟩ = resolve env st ⟨pkg, deps, devB, bld⟩ := rfl

/-- C5: exactly one resolution variant is selected by the precedence
path > git > version; a detailed declaration lacking all three fails with
the invalid-specification error with the state untouched and an empty I/O
event list — no download, clone, or filesystem access is attempted. -/
theorem quantum_c5 :
    (∀ (env : Env) (st : CacheSt) (n : String) (d : DetailedDependency) (p : String),
        d.path = some p →
        resolve_single env st n (.Detailed d)
          = ((resolve_path_dependency env n p).1, st, (resolve_path_dependency env n p).2)) ∧
    (∀ (env : Env) (st : CacheSt) (n : String) (d : DetailedDependency) (g : String),
        d.path = none → d.git = some g →
        resolve_single env st n (.Detailed d) = resolve_git_dependency env st n g d) ∧
    (∀ (env : Env) (st : CacheSt) (n : String) (d : DetailedDependency) (v : String),
        d.path = none → d.git = none → d.version = some v →
        resolve_single env st n (.Detailed d) = resolve_registry_dependency env st n v) ∧
    (∀ (env : Env) (st : CacheSt) (n : String) (d : DetailedDependency),
        d.path = none → d.git = none → d.version = none →
        resolve_single env st n (.Detailed d) = (.error (.specError n), st, [])) := by
  refine ⟨?_, ?_, ?_, ?_⟩
  · intro env st n d p hp
    simp [resolve_single, hp]
  · intro env st n d g hp hg
    simp [resolve_single, hp, hg]
  · intro env st n d v hp hg hv
    simp [resolve_single, hp, hg, hv]
  · intro env st n d hp hg hv
    simp [resolve_single, hp, hg, hv]

/-- C5 witness: the four precedence branches at concrete declarations; in
particular the all-absent declaration yields SpecError with no I/O events. -/
theorem quantum_c5_witness :
    resolve_single diamondEnv [] "w" (.Detailed onlyPathDet)
        = ((resolve_path_dependency diamondEnv "w" "/lib").1, [],
           (resolve_path_dependency diamondEnv "w" "/lib").2) ∧
    resolve_single diamondEnv [] "w" (.Detailed onlyGitDet)
        = resolve_git_dependency diamondEnv [] "w" "http://g/r" onlyGitDet ∧
    resolve_single diamondEnv [] "w" (.Detailed onlyVersionDet)
        = resolve_registry_dependency diamondEnv [] "w" "1.0.0" ∧
    resolve_single diamondEnv [] "w" (.Detailed noneDet)
        = (.error (.specError "w"), [], []) :=
  ⟨quantum_c5.1 diamondEnv [] "w" onlyPathDet "/lib" rfl,
   quantum_c5.2.1 diamondEnv [] "w" onlyGitDet "http://g/r" rfl rfl,
   quantum_c5.2.2.1 diamondEnv [] "w" onlyVersionDet "1.0.0" rfl rfl rfl,
   quantum_c5.2.2.2 diamondEnv [] "w" noneDet rfl rfl rfl⟩

/-- C6: resolving the same registry name+version twice against the same cache
root performs exactly one download: the first call downloads once and caches
the extracted package under `name-version`, the second call performs no I/O
at all and returns the identical record from the cache, leaving the cache
unchanged. -/
theorem quantum_c6 (env : Env) (st : CacheSt) (n v : String) (m : Manifest)
    (h1 : lookupKV st (n ++ "-" ++ v) = none)
    (h2 : env.downloadAt (n, v) = .extracted (some m)) :
    (resolve_registry_dependency env st n v).2.2 = [.download n v] ∧
    (resolve_registry_dependency env st n v).1
      = .ok ⟨m.package.name, m.package.version, n ++ "-" ++ v, m, .Registry⟩ ∧
    (resolve_registry_dependency env st n v).2.1
      = insertKV st (n ++ "-" ++ v) (some m) ∧
    resolve_registry_dependency env ((resolve_registry_dependency env st n v).2.1) n v
      = ((resolve_registry_dependency env st n v).1,
         (resolve_registry_dependency env st n v).2.1, []) := by
  have hfirst : resolve_registry_dependency env st n v
      = (.ok ⟨m.package.name, m.package.version, n ++ "-" ++ v, m, .Registry⟩,
         insertKV st (n ++ "-" ++ v) (some m), [.download n v]) := by
    rw [resolve_registry_dependency]
    rw [if_neg (by rw [h1]; simp)]
    rw [h2]
    simp only [load_cached_dependency, lookupKV_insertKV_self]
  have hsecond : resolve_registry_dependency env (insertKV st (n ++ "-" ++ v) (some m)) n v
      = (.ok ⟨m.package.name, m.package.version, n ++ "-" ++ v, m, .Registry⟩,
         insertKV st (n ++ "-" ++ v) (some m), []) := by
    rw [resolve_registry_dependency]
    rw [if_pos (by rw [lookupKV_insertKV_self]; rfl)]
    simp only [load_cached_dependency, lookupKV_insertKV_self]
  rw [hfirst]
  exact ⟨rfl, rfl, rfl, by rw [hsecond]⟩

/-- C6 witness: the download-once behavior at a concrete registry package. -/
theorem quantum_c6_witness :
    (resolve_registry_dependency c6Env [] "pkg" "1.0.0").2.2
        = [.download "pkg" "1.0.0"] ∧
    (resolve_registry_dependency c6Env [] "pkg" "1.0.0").1
        = .ok ⟨"pkg", "1.0.0", "pkg" ++ "-" ++ "1.0.0", mkManifest "pkg" "1.0.0" [], .Registry⟩ ∧
    (resolve_registry_dependency c6Env [] "pkg" "1.0.0").2.1
        = insertKV [] ("pkg" ++ "-" ++ "1.0.0") (some (mkManifest "pkg" "1.0.0" [])) ∧
    resolve_registry_dependency c6Env
        ((resolve_registry_dependency c6Env [] "pkg" "1.0.0").2.1) "pkg" "1.0.0"
      = ((resolve_registry_dependency c6Env [] "pkg" "1.0.0").1,
         (resolve_registry_dependency c6Env [] "pkg" "1.0.0").2.1, []) :=
  quantum_c6 c6Env [] "pkg" "1.0.0" (mkManifest "pkg" "1.0.0" []) rfl rfl

/-- C1 counterexample: a dependency fetched via the Git variant comes back
with sourceKind Registry (not Git), and the lockfile entry built from the
resolution carries the source string "registry" (not "git"):
`load_cached_dependency` labels every cached dependency Registry. -/
theorem quantum_c1_counterexample :
    sourceOf (resolve_git_dependency gitEnv [] "gdep" "http://g/r" gitDet).1
        = some .Registry ∧
    sourceOf (resolve_git_dependency gitEnv [] "gdep" "http://g/r" gitDet).1
        ≠ some .Git ∧
    (lookupKV (from_resolved (rsOf (resolve gitEnv [] gitRoot).1)).dependencies "gdep").map
        (fun e => e.source) = some "registry" := by
  refine ⟨by decide, by decide, by decide⟩

/-- C1 (amended): Registry-variant and Git-variant fetches both yield
sourceKind Registry, whose lockfile source string is "registry" (the git
variant loads through `load_cached_dependency`, which hardcodes Registry);
Path-variant fetches yield sourceKind Path, whose lockfile source string is
"path". -/
theorem quantum_c1 :
    (∀ (env : Env) (st : CacheSt) (n u : String) (d : DetailedDependency)
        (info : DependencyInfo) (st2 : CacheSt) (ev : List Event),
        resolve_git_dependency env st n u d = (.ok info, st2, ev) →
        info.source = .Registry ∧ sourceStr info.source = "registry") ∧
    (∀ (env : Env) (st : CacheSt) (n v : String)
        (info : DependencyInfo) (st2 : CacheSt) (ev : List Event),
        resolve_registry_dependency env st n v = (.ok info, st2, ev) →
        info.source = .Registry ∧ sourceStr info.source = "registry") ∧
    (∀ (env : Env) (n p : String) (info : DependencyInfo) (ev : List Event),
        resolve_path_dependency env n p = (.ok info, ev) →
        info.source = .Path ∧ sourceStr info.source = "path") := by
  refine ⟨?_, ?_, ?_⟩
  · intro env st n u d info st2 ev h
    have h1 : (resolve_git_dependency env st n u d).1 = .ok info := by rw [h]
    obtain ⟨st3, p, hl⟩ := git_ok_cached env st n u d info h1
    have hs := load_cached_source st3 p info hl
    exact ⟨hs, by rw [hs]; rfl⟩
  · intro env st n v info st2 ev h
    have h1 : (resolve_registry_dependency env st n v).1 = .ok info := by rw [h]
    obtain ⟨st3, p, hl⟩ := registry_ok_cached env st n v info h1
    have hs := load_cached_source st3 p info hl
    exact ⟨hs, by rw [hs]; rfl⟩
  · intro env n p info ev h
    have h1 : (resolve_path_dependency env n p).1 = .ok info := by rw [h]
    have hs := (path_ok_shape env n p info h1).2
    exact ⟨hs, by rw [hs]; rfl⟩

/-- C1 witness: the three variant conclusions at concrete fetches. -/
theorem quantum_c1_witness :
    ((rsOf (resolve gitEnv [] gitRoot).1).map fun ni => sourceStr ni.2.source)
        = ["registry"] ∧
    sourceOf (resolve_git_dependency gitEnv [] "gdep" "http://g/r" gitDet).1
        = some .Registry ∧
    sourceOf (resolve_registry_dependency c6Env [] "pkg" "1.0.0").1 = some .Registry ∧
    sourceOf (resolve_path_dependency aliasEnv "alias" "/lib").1 = some .Path := by
  refine ⟨by decide, ?_, ?_, ?_⟩
  · have := (quantum_c1.1 gitEnv [] "gdep" "http://g/r" gitDet
      ⟨"gpkg", "1.0.0", git_cache_key "http://g/r" (git_ref_str gitDet),
        mkManifest "gpkg" "1.0.0" [], .Registry⟩
      (insertKV [] (git_cache_key "http://g/r" (git_ref_str gitDet))
        (some (mkManifest "gpkg" "1.0.0" []))) [.clone "http://g/r"] (by decide)).1
    simp [sourceOf]
    decide
  · have := (quantum_c1.2.1 c6Env [] "pkg" "1.0.0"
      ⟨"pkg", "1.0.0", "pkg-1.0.0", mkManifest "pkg" "1.0.0" [], .Registry⟩
      (insertKV [] "pkg-1.0.0" (some (mkManifest "pkg" "1.0.0" [])))
      [.download "pkg" "1.0.0"] (by decide)).1
    simp [sourceOf]
    decide
  · have := (quantum_c1.2.2 aliasEnv "alias" "/lib"
      ⟨"alias", "2.0.0", "/lib", mkManifest "realname" "2.0.0" [], .Path⟩
      [.pathCheck "/lib"] (by decide)).1
    simp [sourceOf]
    decide

/-- C7 counterexample: a Path-variant resolution keeps the declared key as
the record's name even when the loaded manifest carries a different package
name, so the name is not taken from the loaded manifest for every variant. -/
theorem quantum_c7_counterexample :
    nameOf (resolve_path_dependency aliasEnv "alias" "/lib").1 = some "alias" ∧
    manifestNameOf (resolve_path_dependency aliasEnv "alias" "/lib").1
        = some "realname" ∧
    nameOf (resolve_path_dependency aliasEnv "alias" "/lib").1
        ≠ manifestNameOf (resolve_path_dependency aliasEnv "alias" "/lib").1 := by
  refine ⟨by decide, by decide, by decide⟩

/-- C7 (amended): for Registry-variant and Git-variant resolutions the record's
name is taken from the dependency's own loaded manifest (which may differ
from the declared key); for Path-variant resolutions the name is the declared
key itself. -/
theorem quantum_c7 :
    (∀ (st : CacheSt) (p : String) (info : DependencyInfo),
        load_cached_dependency st p = .ok info →
        info.name = info.manifest.package.name) ∧
    (∀ (env : Env) (st : CacheSt) (n v : String)
        (info : DependencyInfo) (st2 : CacheSt) (ev : List Event),
        resolve_registry_dependency env st n v = (.ok info, st2, ev) →
        info.name = info.manifest.package.name) ∧
    (∀ (env : Env) (st : CacheSt) (n u : String) (d : DetailedDependency)
        (info : DependencyInfo) (st2 : CacheSt) (ev : List Event),
        resolve_git_dependency env st n u d = (.ok info, st2, ev) →
        info.name = info.manifest.package.name) ∧
    (∀ (env : Env) (n p : String) (info : DependencyInfo) (ev : List Event),
        resolve_path_dependency env n p = (.ok info, ev) → info.name = n) := by
  refine ⟨?_, ?_, ?_, ?_⟩
  · exact load_cached_name
  · intro env st n v info st2 ev h
    have h1 : (resolve_registry_dependency env st n v).1 = .ok info := by rw [h]
    obtain ⟨st3, p, hl⟩ := registry_ok_cached env st n v info h1
    exact load_cached_name st3 p info hl
  · intro env st n u d info st2 ev h
    have h1 : (resolve_git_dependency env st n u d).1 = .ok info := by rw [h]
    obtain ⟨st3, p, hl⟩ := git_ok_cached env st n u d info h1
    exact load_cached_name st3 p info hl
  · intro env n p info ev h
    have h1 : (resolve_path_dependency env n p).1 = .ok info := by rw [h]
    exact (path_ok_shape env n p info h1).1

/-- C7 witness: the name rule at concrete fetches of each variant. -/
theorem quantum_c7_witness :
    nameOf (resolve_registry_dependency c7Env [] "alias" "1.0.0").1 = some "pkg" ∧
    nameOf (resolve_git_dependency gitEnv [] "gdep" "http://g/r" gitDet).1
        = some "gpkg" ∧
    nameOf (resolve_path_dependency aliasEnv "alias" "/lib").1 = some "alias" := by
  refine ⟨by decide, by decide, ?_⟩
  have := quantum_c7.2.2.2 aliasEnv "alias" "/lib"
    ⟨"alias", "2.0.0", "/lib", mkManifest "realname" "2.0.0" [], .Path⟩
    [.pathCheck "/lib"] (by decide)
  decide

/-- C3: for every ResultSet, serializing the lockfile built by from_resolved
and deserializing it back succeeds and returns the lockfile unchanged on
every populated field; and (for the well-formed case of unique names, as a
HashMap guarantees) the (name, version, source) triples of the lockfile
entries are exactly those of the resolved records. -/
theorem quantum_c3 (rs : ResultSet) :
    deserialize_lockfile (serialize_lockfile (from_resolved rs))
        = some (from_resolved rs) ∧
    ((rs.map Prod.fst).Nodup →
      (from_resolved rs).dependencies.map (fun kd => (kd.2.name, kd.2.version, kd.2.source))
        = rs.map fun ki => (ki.2.name, ki.2.version, sourceStr ki.2.source)) := by
  constructor
  · exact lockfile_roundtrip (from_resolved rs) (by rw [from_resolved]; norm_num)
  · intro h
    rw [from_resolved_deps rs h, List.map_map]
    rfl

/-- C3 witness: the round trip and the triple match at a concrete two-entry
ResultSet. -/
theorem quantum_c3_witness :
    deserialize_lockfile (serialize_lockfile (from_resolved
        [("a", ⟨"a", "1.0.0", "/a", mkManifest "a" "1.0.0" [], .Registry⟩),
         ("b", ⟨"bb", "2.0.0", "/b", mkManifest "bb" "2.0.0" [], .Path⟩)]))
      = some (from_resolved
        [("a", ⟨"a", "1.0.0", "/a", mkManifest "a" "1.0.0" [], .Registry⟩),
         ("b", ⟨"bb", "2.0.0", "/b", mkManifest "bb" "2.0.0" [], .Path⟩)]) ∧
    (from_resolved
        [("a", ⟨"a", "1.0.0", "/a", mkManifest "a" "1.0.0" [], .Registry⟩),
         ("b", ⟨"bb", "2.0.0", "/b", mkManifest "bb" "2.0.0" [], .Path⟩)]).dependencies.map
        (fun kd => (kd.2.name, kd.2.version, kd.2.source))
      = [("a", "1.0.0", "registry"), ("bb", "2.0.0", "path")] :=
  ⟨(quantum_c3 _).1,
   (quantum_c3
      [("a", ⟨"a", "1.0.0", "/a", mkManifest "a" "1.0.0" [], .Registry⟩),
       ("b", ⟨"bb", "2.0.0", "/b", mkManifest "bb" "2.0.0" [], .Path⟩)]).2 (by decide)⟩

/-- C9: the git cache-identity function is not injective — the URLs
`srv/repo` and `srv:repo` are distinct but share the identity `srv_repo-HEAD`
with an empty ref declaration — and a resolution of the second URL is served
from the cache directory that a resolution of the first URL populated: it
performs no clone (empty event list) and returns that cached package, even
though the second URL is not cloneable at all in this environment. -/
theorem quantum_c9 :
    git_cache_key "srv/repo" (git_ref_str c9DetA)
        = git_cache_key "srv:repo" (git_ref_str c9DetB) ∧
    "srv/repo" ≠ "srv:repo" ∧
    (resolve_git_dependency c9Env [] "g" "srv:repo" c9DetB).1 = .error .cloneFail ∧
    resolve_git_dependency c9Env
        ((resolve_git_dependency c9Env [] "g" "srv/repo" c9DetA).2.1) "g" "srv:repo" c9DetB
      = ((resolve_git_dependency c9Env [] "g" "srv/repo" c9DetA).1,
         (resolve_git_dependency c9Env [] "g" "srv/repo" c9DetA).2.1, []) := by
  refine ⟨by decide, by decide, by decide, by decide⟩

/-- C10: manifest loading accepts a package version string exactly when it
splits on '.' into exactly three parts each parsing as a u32; this admits
non-canonical forms such as leading zeros ("1.02.3") or a leading plus sign
in a component ("1.+2.3"), rejects strings with fewer or more than three
components, and enforces the 32-bit bound on each component. -/
theorem quantum_c10 :
    (∀ v : String, is_valid_version v
        = ((splitOnChar '.' v.data).length == 3
            && (splitOnChar '.' v.data).all parsesAsU32)) ∧
    is_valid_version "1.02.3" = true ∧
    is_valid_version "1.+2.3" = true ∧
    is_valid_version "1.2" = false ∧
    is_valid_version "1.2.3.4" = false ∧
    is_valid_version "1.2.4294967295" = true ∧
    is_valid_version "1.2.4294967296" = false ∧
    (∀ m : Manifest, m.package.name = "pkg" → m.package.edition = "2024" →
        m.build.opt_level = 2 → m.build.address_size = 64 →
        (validate m = true ↔ is_valid_version m.package.version = true)) := by
  refine ⟨fun v => rfl, by decide, by decide, by decide, by decide, by decide, by decide, ?_⟩
  intro m h1 h2 h3 h4
  rw [validate, h1, h2, h3, h4]
  simp

/-- C10 witness: the validate-acceptance equivalence at a concrete manifest. -/
theorem quantum_c10_witness :
    validate (mkManifest "pkg" "1.0.0" []) = true
      ↔ is_valid_version (mkManifest "pkg" "1.0.0" []).package.version = true :=
  quantum_c10.2.2.2.2.2.2.2 (mkManifest "pkg" "1.0.0" []) rfl rfl rfl rfl
